import Mathlib

/-!
Shallow embedding of the `caponata` animation engine
(`src/crates/small-text/src/animation/`): symbol/style data model, target
resolution, conflict priority, repetition and advance controllers, and the
frame-production algorithm of `Animation::next_frame`.

Machine integers (`u16`, `usize`) are modelled as `Nat` (no operation in the
modelled code can overflow on the inputs considered; `saturating_sub` is `Nat`
subtraction). `Instant`/`Duration` are modelled as `Nat` timestamps supplied
explicitly to `next_frame`. Rust `HashMap`s are modelled as association lists
carrying the map's iteration order; every code path relevant to the claims
either does not iterate the map or sorts it by key first, exactly as the
source does. A Rust panic (a failed `unwrap`) is modelled by an outer
`Option` layer: `none` is a panic, `some r` is a normal return of `r`.
-/

namespace Caponata

/-- Model of `ratatui::style::Color`, opaque to the engine; modelled as `Nat`. -/
abbrev Color := Nat

/-- Model of `ratatui::style::Modifier`, a bitflag set; modelled as `Nat` with
bitwise union / difference. -/
abbrev Modifier := Nat

/-- Model of `Symbol` as used by `animation.rs` (`execute_action` mutates the fields
`value`, `foreground_color`, `background_color`, `modifier`). -/
structure Symbol where
  value : Char
  foreground_color : Color
  background_color : Color
  modifier : Modifier
deriving DecidableEq, Repr

/-- Model of `SymbolState` from `animation/animation.rs`. -/
inductive SymbolState where
  | Styled (symbol : Symbol)
  | Initial (symbol : Symbol)
deriving DecidableEq, Repr

/-- Model of `StepSymbolState` from `animation/animation.rs`. -/
inductive StepSymbolState where
  | Styled (symbol : Symbol)
  | Initial (symbol : Symbol)
  | Untouched (symbol : Symbol)
deriving DecidableEq, Repr

/-- Model of `impl Into<StepSymbolState> for SymbolState`. -/
def SymbolState.intoStep : SymbolState → StepSymbolState
  | .Styled symbol => .Untouched symbol
  | .Initial symbol => .Initial symbol

/-- Model of `impl Into<SymbolState> for StepSymbolState`. -/
def StepSymbolState.intoState : StepSymbolState → SymbolState
  | .Styled symbol => .Styled symbol
  | .Initial symbol => .Initial symbol
  | .Untouched symbol => .Styled symbol

/-- Model of `AnimationAction` from `animation/style/action.rs`. -/
inductive AnimationAction where
  | UpdateCharacter (character : Char)
  | UpdateForegroundColor (color : Color)
  | UpdateBackgroundColor (color : Color)
  | AddModifier (modifier : Modifier)
  | RemoveModifier (modifier : Modifier)
  | RemoveAllModifiers
deriving DecidableEq, Repr

/-- Model of `AnimationTarget` from `animation/style/target.rs`. The `Custom`
variant carries the selection function, receiving the state map (as its
association list) and returning selected virtual x coordinates. -/
inductive AnimationTarget where
  | Single (x : Nat)
  | Range (start stop : Nat)
  | Custom (callable : List (Nat × StepSymbolState) → List Nat)
  | Untouched
  | UntouchedThisStep

/-- The priority assigned to each target by `animation_targets_sorter`
(`animation/style/target.rs`, lines 124–130). -/
def targetPriority : AnimationTarget → Nat
  | .Custom _ => 4
  | .Single _ => 3
  | .Range _ _ => 2
  | .Untouched => 1
  | .UntouchedThisStep => 0

/-- Model of `animation_targets_sorter` from `animation/style/target.rs`:
compares two targets by `targetPriority`. -/
def animation_targets_sorter (a b : AnimationTarget) : Ordering :=
  compare (targetPriority a) (targetPriority b)

/-- Model of `AnimationStep` from `animation/style/step.rs`. The `actions` hash map
is modelled as an association list in the map's iteration order; `duration`
is a `Nat` (milliseconds). -/
structure AnimationStep where
  actions : List (AnimationTarget × List AnimationAction)
  duration : Nat

/-- Model of `AnimationRepeatMode` from `animation/style/repeat_mode.rs`. -/
inductive AnimationRepeatMode where
  | Infinite
  | Finite (n : Nat)
deriving DecidableEq, Repr

/-- Model of `AnimationAdvanceMode` from `animation/style/advance_mode.rs`. -/
inductive AnimationAdvanceMode where
  | Auto
  | Manual
deriving DecidableEq, Repr

/-- Model of `AnimationStyle` from `animation/style/animation.rs`. -/
structure AnimationStyle where
  repeat_mode : AnimationRepeatMode
  advance_mode : AnimationAdvanceMode
  steps : List AnimationStep

/-- Model of `AnimationEvent` as used by `animation/animation.rs`
(variants `FrameGenerated` and `Ended`). -/
inductive AnimationEvent where
  | FrameGenerated
  | Ended
deriving DecidableEq, Repr

/-- Model of `FinitelyRepeatableAnimation` from `animation/repeatable/finitely.rs`. -/
structure FinitelyRepeatableAnimation where
  steps : List AnimationStep
  current_index : Nat
  max_iteration : Nat
  current_iteration : Nat

namespace FinitelyRepeatableAnimation

/-- Model of `FinitelyRepeatableAnimation::new`: `max_iteration` is
`max_iteration.saturating_sub(1)`. -/
def new (steps : List AnimationStep) (max_iteration : Nat) :
    FinitelyRepeatableAnimation :=
  { steps := steps
    current_index := 0
    max_iteration := max_iteration - 1
    current_iteration := 0 }

/-- Model of `FinitelyRepeatableAnimation::current_step`. Outer `none` models the
panic of `steps.get(..).unwrap()`; `some none` models returning `None`
(iteration limit reached); `some (some s)` models `Some(s)`. -/
def current_step (a : FinitelyRepeatableAnimation) :
    Option (Option AnimationStep) :=
  if a.current_index = a.steps.length - 1 ∧
      a.current_iteration = a.max_iteration then
    some none
  else
    match a.steps.get? a.current_index with
    | some s => some (some s)
    | none => none

/-- Model of `FinitelyRepeatableAnimation::next_step`: the Rust `match` on the pair
of booleans `(at_last_step, at_max_iteration)`. -/
def next_step (a : FinitelyRepeatableAnimation) :
    Option (Option AnimationStep) × FinitelyRepeatableAnimation :=
  if a.current_index = a.steps.length - 1 then
    if a.current_iteration = a.max_iteration then
      (some none, a)
    else
      let a' := { a with current_index := 0,
                         current_iteration := a.current_iteration + 1 }
      (match a'.steps.get? a'.current_index with
       | some s => some (some s)
       | none => none, a')
  else
    let a' := { a with current_index := a.current_index + 1 }
    (match a'.steps.get? a'.current_index with
     | some s => some (some s)
     | none => none, a')

end FinitelyRepeatableAnimation

/-- Model of `InfinitelyRepeatableAnimation` from
`animation/repeatable/infinitely.rs`. -/
structure InfinitelyRepeatableAnimation where
  steps : List AnimationStep
  current_index : Nat

namespace InfinitelyRepeatableAnimation

/-- Model of `InfinitelyRepeatableAnimation::new`. -/
def new (steps : List AnimationStep) : InfinitelyRepeatableAnimation :=
  { steps := steps, current_index := 0 }

/-- Model of `InfinitelyRepeatableAnimation::current_step`; `none` models the panic
of `steps.get(..).unwrap()`. -/
def current_step (a : InfinitelyRepeatableAnimation) :
    Option AnimationStep :=
  a.steps.get? a.current_index

/-- Model of `InfinitelyRepeatableAnimation::next_step`. -/
def next_step (a : InfinitelyRepeatableAnimation) :
    Option AnimationStep × InfinitelyRepeatableAnimation :=
  let a' :=
    if a.current_index ≠ a.steps.length - 1 then
      { a with current_index := a.current_index + 1 }
    else
      { a with current_index := 0 }
  (a'.steps.get? a'.current_index, a')

end InfinitelyRepeatableAnimation

/-- Model of `RepeatableAnimation` from `animation/repeatable/animation.rs`. -/
inductive RepeatableAnimation where
  | Finitely (a : FinitelyRepeatableAnimation)
  | Infinitely (a : InfinitelyRepeatableAnimation)

namespace RepeatableAnimation

/-- Model of `RepeatableAnimation::new`. -/
def new (steps : List AnimationStep) (repeat_mode : AnimationRepeatMode) :
    RepeatableAnimation :=
  match repeat_mode with
  | .Finite max_iteration =>
      .Finitely (FinitelyRepeatableAnimation.new steps max_iteration)
  | .Infinite => .Infinitely (InfinitelyRepeatableAnimation.new steps)

/-- Model of `RepeatableAnimation::current_step` (the infinite arm wraps the step
into `Some` via `.into()`; its panic propagates). -/
def current_step (a : RepeatableAnimation) : Option (Option AnimationStep) :=
  match a with
  | .Finitely a => a.current_step
  | .Infinitely a =>
      match a.current_step with
      | some s => some (some s)
      | none => none

/-- Model of `RepeatableAnimation::next_step`. -/
def next_step (a : RepeatableAnimation) :
    Option (Option AnimationStep) × RepeatableAnimation :=
  match a with
  | .Finitely a =>
      let r := a.next_step
      (r.1, .Finitely r.2)
  | .Infinitely a =>
      let r := a.next_step
      (match r.1 with
       | some s => some (some s)
       | none => none, .Infinitely r.2)

end RepeatableAnimation

/-- Model of `ManuallyAdvancableAnimation` from `animation/advancable/manually.rs`. -/
structure ManuallyAdvancableAnimation where
  repeatable_animation : RepeatableAnimation
  is_advanced : Bool

/-- Model of `AutomaticallyAdvancableAnimation` from
`animation/advancable/automatically.rs` (a transparent wrapper). -/
structure AutomaticallyAdvancableAnimation where
  repeatable_animation : RepeatableAnimation

/-- Model of `AdvancableAnimation` from `animation/advancable/animation.rs`. -/
inductive AdvancableAnimation where
  | Manually (a : ManuallyAdvancableAnimation)
  | Automatically (a : AutomaticallyAdvancableAnimation)

namespace AdvancableAnimation

/-- Model of `AdvancableAnimation::new`. -/
def new (steps : List AnimationStep) (repeat_mode : AnimationRepeatMode)
    (advance_mode : AnimationAdvanceMode) : AdvancableAnimation :=
  match advance_mode with
  | .Manual =>
      .Manually { repeatable_animation := RepeatableAnimation.new steps repeat_mode
                  is_advanced := false }
  | .Auto =>
      .Automatically { repeatable_animation := RepeatableAnimation.new steps repeat_mode }

/-- Model of `AdvancableAnimation::current_step`. -/
def current_step (a : AdvancableAnimation) : Option (Option AnimationStep) :=
  match a with
  | .Manually a => a.repeatable_animation.current_step
  | .Automatically a => a.repeatable_animation.current_step

/-- Model of `AdvancableAnimation::next_step`
(`ManuallyAdvancableAnimation::next_step` returns `None` without touching
the repetition controller unless `advance` was called beforehand). -/
def next_step (a : AdvancableAnimation) :
    Option (Option AnimationStep) × AdvancableAnimation :=
  match a with
  | .Manually a =>
      if !a.is_advanced then
        (some none, .Manually a)
      else
        let r := a.repeatable_animation.next_step
        (r.1, .Manually { repeatable_animation := r.2, is_advanced := false })
  | .Automatically a =>
      let r := a.repeatable_animation.next_step
      (r.1, .Automatically { repeatable_animation := r.2 })

/-- Model of `AdvancableAnimation::advance`. -/
def advance (a : AdvancableAnimation) : AdvancableAnimation :=
  match a with
  | .Manually a => .Manually { a with is_advanced := true }
  | .Automatically a => .Automatically a

end AdvancableAnimation

/-- Association-list lookup, modelling `HashMap::get` / `get_mut`. -/
def lookupKey (x : Nat) : List (Nat × α) → Option α
  | [] => none
  | (k, v) :: rest => if k = x then some v else lookupKey x rest

/-- Association-list in-place update, modelling `HashMap::insert` on the
paths where the key is present (replaces the first binding; appends when
the key is absent). -/
def setKey (x : Nat) (v : α) : List (Nat × α) → List (Nat × α)
  | [] => [(x, v)]
  | (k, w) :: rest =>
      if k = x then (k, v) :: rest else (k, w) :: setKey x v rest

/-- Insert into a list sorted in ascending key order (helper of
`sortPairsByKey`). -/
def insertByKey (p : Nat × α) : List (Nat × α) → List (Nat × α)
  | [] => [p]
  | q :: rest =>
      if p.1 ≤ q.1 then p :: q :: rest else q :: insertByKey p rest

/-- Sort an association list by key in ascending order, modelling
`step_states_as_vec.sort_by(|a, b| a.0.cmp(&b.0))` in `resolve_target`. -/
def sortPairsByKey : List (Nat × α) → List (Nat × α)
  | [] => []
  | p :: rest => insertByKey p (sortPairsByKey rest)

/-- Stable insertion into a list sorted in ascending `targetPriority`
order (helper of `sortActions`). -/
def insertByTargetPriority (p : AnimationTarget × List AnimationAction) :
    List (AnimationTarget × List AnimationAction) →
    List (AnimationTarget × List AnimationAction)
  | [] => [p]
  | q :: rest =>
      if targetPriority p.1 ≤ targetPriority q.1 then p :: q :: rest
      else q :: insertByTargetPriority p rest

/-- The stable ascending sort
`actions.sort_by(|a, b| animation_targets_sorter(a.0, b.0))` performed by
`Animation::process_step`. -/
def sortActions :
    List (AnimationTarget × List AnimationAction) →
    List (AnimationTarget × List AnimationAction)
  | [] => []
  | p :: rest => insertByTargetPriority p (sortActions rest)

/-- Model of `is_symbol_untouched` from `animation/animation.rs` (lines 391–393). -/
def is_symbol_untouched : StepSymbolState → Bool
  | .Untouched _ => true
  | _ => false

/-- Model of `is_symbol_untouched_this_step` from `animation/animation.rs`
(lines 395–400). -/
def is_symbol_untouched_this_step : StepSymbolState → Bool
  | .Initial _ => true
  | .Untouched _ => true
  | _ => false

/-- Model of `AnimationFrame` from `animation/animation.rs`. -/
structure AnimationFrame where
  symbols : List (Nat × Symbol)
deriving DecidableEq, Repr

/-- Model of `Animation` from `animation/animation.rs`. -/
structure Animation where
  advancable_animation : AdvancableAnimation
  symbol_states : List (Nat × SymbolState)
  is_paused : Bool
  last_step_retrieved_at : Option Nat
  last_event : Option AnimationEvent

namespace Animation

/-- Model of `Animation::new`. -/
def new (style : AnimationStyle) (symbols : List (Nat × Symbol)) :
    Animation :=
  { advancable_animation :=
      AdvancableAnimation.new style.steps style.repeat_mode style.advance_mode
    symbol_states := symbols.map (fun p => (p.1, SymbolState.Initial p.2))
    is_paused := false
    last_step_retrieved_at := none
    last_event := none }

/-- Model of `Animation::resolve_target` (lines 287–342); arms restricted to the
variants of `AnimationTarget` in `animation/style/target.rs`. The `Range`
arm is the inclusive `(start..=end).collect()`. -/
def resolve_target (target : AnimationTarget)
    (step_states : List (Nat × StepSymbolState)) : List Nat :=
  let step_states_as_vec := sortPairsByKey step_states
  match target with
  | .Single x => [x]
  | .Range start stop => List.range' start (stop + 1 - start)
  | .Custom callable => callable step_states
  | .Untouched =>
      (step_states_as_vec.filter (fun p => is_symbol_untouched p.2)).map
        Prod.fst
  | .UntouchedThisStep =>
      (step_states_as_vec.filter
        (fun p => is_symbol_untouched_this_step p.2)).map Prod.fst

/-- Model of `Animation::execute_action` (lines 367–388). -/
def execute_action (symbol : Symbol) (action : AnimationAction) : Symbol :=
  match action with
  | .UpdateCharacter character => { symbol with value := character }
  | .UpdateForegroundColor color => { symbol with foreground_color := color }
  | .UpdateBackgroundColor color => { symbol with background_color := color }
  | .AddModifier modifier =>
      { symbol with modifier := Nat.lor symbol.modifier modifier }
  | .RemoveModifier modifier =>
      { symbol with modifier := Nat.ldiff symbol.modifier modifier }
  | .RemoveAllModifiers => { symbol with modifier := 0 }

/-- The symbol carried by a `StepSymbolState` (the three-armed `match` at
the head of `execute_actions`). -/
def stepStateSymbol : StepSymbolState → Symbol
  | .Styled symbol => symbol
  | .Untouched symbol => symbol
  | .Initial symbol => symbol

/-- Model of `Animation::execute_actions` (lines 344–365): for each resolved
coordinate, `step_states.get_mut(&x).unwrap()` (its panic is the outer
`none`), apply the actions in list order, and re-insert the symbol as
`Styled`. -/
def execute_actions (x_coords : List Nat)
    (step_states : List (Nat × StepSymbolState))
    (actions : List AnimationAction) :
    Option (List (Nat × StepSymbolState)) :=
  match x_coords with
  | [] => some step_states
  | x :: rest =>
      match lookupKey x step_states with
      | none => none
      | some step_state =>
          let symbol := (actions.foldl execute_action
            (stepStateSymbol step_state))
          execute_actions rest
            (setKey x (StepSymbolState.Styled symbol) step_states) actions

/-- The `for (target, actions) in actions` loop body of
`Animation::process_step`, with panic propagation. -/
def processActions (step_states : List (Nat × StepSymbolState)) :
    List (AnimationTarget × List AnimationAction) →
    Option (List (Nat × StepSymbolState))
  | [] => some step_states
  | (target, actions) :: rest =>
      let x_coords := resolve_target target step_states
      match execute_actions x_coords step_states actions with
      | none => none
      | some step_states' => processActions step_states' rest

/-- Model of `Animation::process_step` (lines 250–272): convert the committed states
into step states, sort the step's `(target, actions)` entries by
`animation_targets_sorter`, execute them in that order, and commit back. -/
def process_step (a : Animation) (step : AnimationStep) : Option Animation :=
  let step_states := a.symbol_states.map (fun p => (p.1, p.2.intoStep))
  let actions := sortActions step.actions
  match processActions step_states actions with
  | none => none
  | some step_states' =>
      some { a with symbol_states :=
              step_states'.map (fun p => (p.1, p.2.intoState)) }

/-- The symbol emitted by `make_frame` for a committed state (both the
`Styled` and the `Initial` arm of the `filter_map` emit the symbol). -/
def frameSymbol : SymbolState → Symbol
  | .Styled symbol => symbol
  | .Initial symbol => symbol

/-- Model of `Animation::make_frame` (lines 274–285): both `SymbolState` arms emit
the symbol, so every position is present in the frame. -/
def make_frame (a : Animation) : AnimationFrame :=
  { symbols := a.symbol_states.map (fun p => (p.1, frameSymbol p.2)) }

/-- Model of `Animation::next_step` (lines 228–248), the private timing gate: if
elapsed time reaches the current step's duration, ask the advance
controller for the next step, falling back to the current step when none
is returned; otherwise return the current step. `some none` models the
early `?` return of `None`. -/
def next_step_gate (a : Animation) (now last_step_retrieved_at : Nat) :
    Option (Option AnimationStep) × Animation :=
  match a.advancable_animation.current_step with
  | none => (none, a)
  | some none => (some none, a)
  | some (some current_step) =>
      if now - last_step_retrieved_at ≥ current_step.duration then
        let r := a.advancable_animation.next_step
        let a' := { a with advancable_animation := r.2 }
        match r.1 with
        | none => (none, a')
        | some (some s) => (some (some s), a')
        | some none => (some (some current_step), a')
      else
        (some (some current_step), a)

/-- The step-selection phase of `Animation::next_frame` (the `let step =
if ...` chain at lines 195–205). Note the source updates
`last_step_retrieved_at` to `now` *before* the timing gate runs, and sets
`last_event` to `FrameGenerated` at the same point. -/
def select_step (a : Animation) (now : Nat) :
    Option (Option AnimationStep) × Animation :=
  if a.is_paused then
    (a.advancable_animation.current_step, a)
  else
    match a.last_step_retrieved_at with
    | none =>
        (a.advancable_animation.current_step,
         { a with last_step_retrieved_at := some now })
    | some last_step_retrieved_at =>
        next_step_gate
          { a with last_step_retrieved_at := some now,
                   last_event := some .FrameGenerated }
          now last_step_retrieved_at

/-- Model of `Animation::next_frame` (lines 192–214), with `now` injected in place
of `Instant::now()`: select the step (possibly advancing) and, if one is
available, process it and emit a frame; otherwise record the `Ended`
event and return `None`. -/
def next_frame (a : Animation) (now : Nat) :
    Option (Option AnimationFrame) × Animation :=
  let r := select_step a now
  match r.1 with
  | none => (none, r.2)
  | some (some step) =>
      match process_step r.2 step with
      | none => (none, r.2)
      | some a' => (some (some (make_frame a')), a')
  | some none =>
      (some none, { r.2 with last_event := some .Ended })

end Animation

/-- Keys of an association list, in order (the key set of a modelled
`HashMap`). -/
def keysOf (m : List (Nat × α)) : List Nat :=
  m.map Prod.fst

/-- State of a `FinitelyRepeatableAnimation` after `n` successive
`next_step` calls (each call's returned value is discarded). -/
def iterNextFRA (a : FinitelyRepeatableAnimation) :
    Nat → FinitelyRepeatableAnimation
  | 0 => a
  | n + 1 => iterNextFRA a.next_step.2 n

/-- State of an `InfinitelyRepeatableAnimation` after `n` successive
`next_step` calls. -/
def iterNextIRA (a : InfinitelyRepeatableAnimation) :
    Nat → InfinitelyRepeatableAnimation
  | 0 => a
  | n + 1 => iterNextIRA a.next_step.2 n

/-- Run `Animation::next_frame` once per timestamp in `ts`, collecting the
results of every call. -/
def runFrames (a : Animation) :
    List Nat → List (Option (Option AnimationFrame)) × Animation
  | [] => ([], a)
  | t :: ts =>
      let r := a.next_frame t
      let rest := runFrames r.2 ts
      (r.1 :: rest.1, rest.2)

/-- The underlying ordered step list of a repetition controller. -/
def RepeatableAnimation.stepsList : RepeatableAnimation → List AnimationStep
  | .Finitely a => a.steps
  | .Infinitely a => a.steps

/-- The underlying ordered step list of an advance controller. -/
def AdvancableAnimation.stepsList : AdvancableAnimation → List AnimationStep
  | .Manually a => a.repeatable_animation.stepsList
  | .Automatically a => a.repeatable_animation.stepsList

/-- The underlying ordered step list of a live `Animation`. -/
def Animation.stepsList (a : Animation) : List AnimationStep :=
  a.advancable_animation.stepsList

/-- A concrete symbol used by the concrete witnesses and counterexamples. -/
def symA : Symbol :=
  { value := 'a', foreground_color := 0, background_color := 0, modifier := 0 }

/-- A pure wait step of the given duration (empty action map), used to
build concrete step lists. -/
def waitStep (d : Nat) : AnimationStep :=
  { actions := [], duration := d }

/-- A concrete step of duration 100 styling position 0 with a character
update. -/
def stepCh0 : AnimationStep :=
  { actions := [(.Single 0, [.UpdateCharacter 'b'])], duration := 100 }

/-- A concrete step whose only target is position 5 (absent from the
one-position symbol maps used below). -/
def stepCh5 : AnimationStep :=
  { actions := [(.Single 5, [.UpdateCharacter 'b'])], duration := 100 }

/-- A concrete step combining a `Single` target and an `UntouchedThisStep`
target, used to exhibit the processing order of `process_step`. -/
def stepMix : AnimationStep :=
  { actions := [(.Single 0, [.UpdateCharacter 'b']),
                (.UntouchedThisStep, [.AddModifier 1])]
    duration := 100 }

/-- A state of `FinitelyRepeatableAnimation` for which `next_step` returns
`None` satisfies the terminal condition (last index and last iteration). -/
theorem fra_terminal_of_next_none (a : FinitelyRepeatableAnimation)
    (h : a.next_step.1 = some none) :
    a.current_index = a.steps.length - 1 ∧
      a.current_iteration = a.max_iteration := by
  unfold FinitelyRepeatableAnimation.next_step at h
  by_cases h1 : a.current_index = a.steps.length - 1
  · by_cases h2 : a.current_iteration = a.max_iteration
    · exact ⟨h1, h2⟩
    · simp only [h1, h2, if_true, if_false] at h
      split at h <;> simp_all
  · simp only [h1, if_false] at h
    split at h <;> simp_all

/-- In the terminal state, `next_step` returns `None` and leaves the
controller unchanged. -/
theorem fra_next_step_terminal (a : FinitelyRepeatableAnimation)
    (h1 : a.current_index = a.steps.length - 1)
    (h2 : a.current_iteration = a.max_iteration) :
    a.next_step = (some none, a) := by
  unfold FinitelyRepeatableAnimation.next_step
  simp [h1, h2]

/-- In the terminal state, `current_step` returns `None`. -/
theorem fra_current_step_terminal (a : FinitelyRepeatableAnimation)
    (h1 : a.current_index = a.steps.length - 1)
    (h2 : a.current_iteration = a.max_iteration) :
    a.current_step = some none := by
  unfold FinitelyRepeatableAnimation.current_step
  simp [h1, h2]

/-- Iterating `next_step` from the terminal state never changes the
controller. -/
theorem iterNextFRA_terminal (a : FinitelyRepeatableAnimation)
    (h1 : a.current_index = a.steps.length - 1)
    (h2 : a.current_iteration = a.max_iteration) :
    ∀ n, iterNextFRA a n = a := by
  intro n
  induction n with
  | zero => rfl
  | succ n ih =>
      have h := fra_next_step_terminal a h1 h2
      simp [iterNextFRA, h, ih]

/-- Splitting an iteration of `next_step` calls. -/
theorem iterNextFRA_add (a : FinitelyRepeatableAnimation) (m n : Nat) :
    iterNextFRA a (m + n) = iterNextFRA (iterNextFRA a m) n := by
  induction m generalizing a with
  | zero => rw [Nat.zero_add]; rfl
  | succ m ih =>
      rw [Nat.succ_add]
      show iterNextFRA a.next_step.2 (m + n) = _
      rw [ih]
      rfl

/-- C5: for every finite repetition controller, once `next_step()` has
returned `None`, every subsequent call to `next_step()` or
`current_step()` also returns `None`: the controller is permanently
exhausted and never again yields a step. -/
theorem finite_controller_permanently_exhausted
    (a : FinitelyRepeatableAnimation)
    (h : a.next_step.1 = some none) :
    ∀ n, (iterNextFRA a n).current_step = some none ∧
      (iterNextFRA a n).next_step.1 = some none := by
  obtain ⟨h1, h2⟩ := fra_terminal_of_next_none a h
  intro n
  rw [iterNextFRA_terminal a h1 h2 n]
  refine ⟨fra_current_step_terminal a h1 h2, ?_⟩
  rw [fra_next_step_terminal a h1 h2]

/-- Witness for C5 at a concrete exhausted controller (one step, one
iteration), checked three calls later. -/
theorem finite_controller_permanently_exhausted_witness :
    (iterNextFRA (FinitelyRepeatableAnimation.new [waitStep 7] 1)
        3).current_step = some none ∧
      (iterNextFRA (FinitelyRepeatableAnimation.new [waitStep 7] 1)
        3).next_step.1 = some none :=
  finite_controller_permanently_exhausted
    (FinitelyRepeatableAnimation.new [waitStep 7] 1) rfl 3

/-- C6 counterexample: for `Finite(2)` over 3 concrete steps, the 6th
`next_step()` call already returns `None` — only 5 calls return `Some`,
not the 6 the claim requires (the construction-time current step supplies
the first of the six served steps). -/
theorem finite_two_passes_sixth_call_is_none :
    (iterNextFRA (FinitelyRepeatableAnimation.new
        [waitStep 0, waitStep 1, waitStep 2] 2) 5).next_step.1 = some none :=
  rfl

/-- C6 amended: for `Finite(2)` over 3 steps, exactly 5 `next_step()`
calls return `Some` (indices 1, 2, 0, 1, 2), and every call from the 6th
on returns `None`, however many more times it is called. -/
theorem finite_two_passes_five_then_none (s0 s1 s2 : AnimationStep) :
    (iterNextFRA (FinitelyRepeatableAnimation.new [s0, s1, s2] 2)
        0).next_step.1 = some (some s1) ∧
      (iterNextFRA (FinitelyRepeatableAnimation.new [s0, s1, s2] 2)
        1).next_step.1 = some (some s2) ∧
      (iterNextFRA (FinitelyRepeatableAnimation.new [s0, s1, s2] 2)
        2).next_step.1 = some (some s0) ∧
      (iterNextFRA (FinitelyRepeatableAnimation.new [s0, s1, s2] 2)
        3).next_step.1 = some (some s1) ∧
      (iterNextFRA (FinitelyRepeatableAnimation.new [s0, s1, s2] 2)
        4).next_step.1 = some (some s2) ∧
      ∀ n, 5 ≤ n →
        (iterNextFRA (FinitelyRepeatableAnimation.new [s0, s1, s2] 2)
          n).next_step.1 = some none := by
  refine ⟨rfl, rfl, rfl, rfl, rfl, ?_⟩
  intro n hn
  obtain ⟨m, rfl⟩ := Nat.exists_eq_add_of_le hn
  rw [iterNextFRA_add]
  have h5 : iterNextFRA (FinitelyRepeatableAnimation.new [s0, s1, s2] 2) 5 =
      { steps := [s0, s1, s2], current_index := 2, max_iteration := 1,
        current_iteration := 1 } := rfl
  rw [h5, iterNextFRA_terminal _ rfl rfl m, fra_next_step_terminal _ rfl rfl]

/-- Witness for the amended C6 at concrete steps, 100 calls past the 6th. -/
theorem finite_two_passes_five_then_none_witness :
    (iterNextFRA (FinitelyRepeatableAnimation.new
        [waitStep 0, waitStep 1, waitStep 2] 2) 105).next_step.1 = some none :=
  (finite_two_passes_five_then_none (waitStep 0) (waitStep 1)
      (waitStep 2)).2.2.2.2.2 105 (by norm_num)

/-- C8 counterexample: for `Infinite` over 3 distinct concrete steps, the
4th `next_step()` call returns step index 1 (the same as the very first
call), not step index 0 as the claim states. -/
theorem infinite_wrap_fourth_call_not_step_zero :
    (iterNextIRA (InfinitelyRepeatableAnimation.new
        [waitStep 0, waitStep 1, waitStep 2]) 3).next_step.1
      = some (waitStep 1) ∧ waitStep 1 ≠ waitStep 0 := by
  refine ⟨rfl, ?_⟩
  intro h
  have hd := congrArg AnimationStep.duration h
  simp [waitStep] at hd

/-- C8 amended: for `Infinite` over 3 steps, the 4th `next_step()` call
returns step index 1, identical in content to the result of the very
first call (the returned indices cycle 1, 2, 0, 1, 2, 0, …). -/
theorem infinite_wrap_fourth_call (s0 s1 s2 : AnimationStep) :
    (iterNextIRA (InfinitelyRepeatableAnimation.new [s0, s1, s2])
        3).next_step.1 = some s1 ∧
      (InfinitelyRepeatableAnimation.new [s0, s1, s2]).next_step.1 =
        some s1 :=
  ⟨rfl, rfl⟩

/-- C1: evaluation at the failing input. For a fresh one-position
animation with a single step of duration 100 (`Finite(2)`, `Auto`), the
first `next_frame()` at time 0 stores timestamp 0 and produces a frame;
the second call at time 50 (elapsed 50 < 100) reuses the current step —
the returned frame is identical — yet the stored timestamp is overwritten
to 50 rather than left unchanged as the claim states. -/
theorem next_frame_updates_timestamp_on_reuse :
    ((Animation.new ⟨.Finite 2, .Auto, [stepCh0]⟩
        [(0, symA)]).next_frame 0).1 =
        some (some (AnimationFrame.mk
          [(0, { value := 'b', foreground_color := 0, background_color := 0,
                 modifier := 0 })])) ∧
      ((Animation.new ⟨.Finite 2, .Auto, [stepCh0]⟩
        [(0, symA)]).next_frame 0).2.last_step_retrieved_at = some 0 ∧
      (((Animation.new ⟨.Finite 2, .Auto, [stepCh0]⟩
        [(0, symA)]).next_frame 0).2.next_frame 50).1 =
        ((Animation.new ⟨.Finite 2, .Auto, [stepCh0]⟩
          [(0, symA)]).next_frame 0).1 ∧
      (((Animation.new ⟨.Finite 2, .Auto, [stepCh0]⟩
        [(0, symA)]).next_frame 0).2.next_frame 50).2.last_step_retrieved_at
        = some 50 :=
  ⟨rfl, rfl, rfl, rfl⟩

/-- C3: evaluation at the failing input. For the step-state map
`{0 ↦ Initial, 1 ↦ Untouched}` (position 0 never styled, position 1
styled in a previous step but not this one), `resolve_target(Untouched)`
returns `[1]`, the previously styled position, and excludes the
never-styled position 0 that the claim (and the doc-comment on
`AnimationTarget::Untouched`) requires. -/
theorem resolve_untouched_selects_previously_styled :
    Animation.resolve_target .Untouched
      [(0, .Initial symA), (1, .Untouched symA)] = [1] :=
  rfl

/-- C4: evaluation at the failing input. `process_step` sorts the step's
entries in ascending `targetPriority` order, so `UntouchedThisStep`
(priority 0) is processed before `Single` (priority 3); consequently, over
the one-position state `{0 ↦ Initial}`, position 0 first receives the
`UntouchedThisStep` action `AddModifier(1)` and only then the `Single`
action, ending with modifier 1 — whereas under the claimed order
(`Single` first, `UntouchedThisStep` last) position 0 would have been
marked touched before `UntouchedThisStep` was resolved and would carry
modifier 0. -/
theorem process_step_order_broadest_first :
    sortActions stepMix.actions =
        [(.UntouchedThisStep, [.AddModifier 1]),
         (.Single 0, [.UpdateCharacter 'b'])] ∧
      Animation.processActions [(0, .Initial symA)]
          (sortActions stepMix.actions) =
        some [(0, .Styled { value := 'b', foreground_color := 0,
                            background_color := 0, modifier := 1 })] :=
  ⟨rfl, rfl⟩

/-- C7 counterexample: with an empty steps list, the very first
`next_frame()` call panics (`unwrap` on an empty step list) under
`Infinite` as well as under `Finite(2)`, instead of returning `None`. -/
theorem empty_steps_panics_for_infinite_and_finite_two :
    (Animation.next_frame (Animation.new ⟨.Infinite, .Auto, []⟩
        [(0, symA)]) 0).1 = none ∧
      (Animation.next_frame (Animation.new ⟨.Finite 2, .Auto, []⟩
        [(0, symA)]) 0).1 = none :=
  ⟨rfl, rfl⟩

/-- C7 amended: with an empty steps list, construction and the first
`next_frame()` call are non-fatal exactly for `Finite(n)` with `n ≤ 1`
(under either advance mode): the animation never progresses and
`next_frame()` returns `None` immediately on the first call. -/
theorem empty_steps_finite_low_returns_none (n : Nat) (hn : n ≤ 1)
    (am : AnimationAdvanceMode) (symbols : List (Nat × Symbol))
    (now : Nat) :
    (Animation.next_frame
      (Animation.new ⟨.Finite n, am, []⟩ symbols) now).1 = some none := by
  interval_cases n <;> cases am <;> rfl

/-- Witness for the amended C7 at `Finite(1)`, `Auto`, one position. -/
theorem empty_steps_finite_low_returns_none_witness :
    (Animation.next_frame
      (Animation.new ⟨.Finite 1, .Auto, []⟩ [(0, symA)]) 0).1 = some none :=
  empty_steps_finite_low_returns_none 1 (by norm_num) .Auto [(0, symA)] 0

/-- An association-list lookup succeeds exactly on the keys of the list. -/
theorem lookupKey_isSome_iff_mem (x : Nat) (m : List (Nat × α)) :
    (lookupKey x m).isSome = true ↔ x ∈ keysOf m := by
  induction m with
  | nil => simp [lookupKey, keysOf]
  | cons p rest ih =>
      obtain ⟨k, v⟩ := p
      by_cases h : k = x
      · subst h
        simp [lookupKey, keysOf]
      · simp [lookupKey, keysOf, h, ih, Ne.symm h]

/-- Replacing the value at a present key leaves the key list unchanged. -/
theorem keysOf_setKey (x : Nat) (v : α) (m : List (Nat × α))
    (h : x ∈ keysOf m) : keysOf (setKey x v m) = keysOf m := by
  induction m with
  | nil => simp [keysOf] at h
  | cons p rest ih =>
      obtain ⟨k, w⟩ := p
      by_cases hk : k = x
      · simp [setKey, hk, keysOf]
      · have hx : x ∈ keysOf rest := by
          simp [keysOf] at h ⊢
          rcases h with h | h
          · exact absurd h.symm hk
          · exact h
        simp [setKey, hk, keysOf]
        exact ih hx

/-- A successful `execute_actions` run preserves the key list of the
step-state map (it only replaces values at present keys). -/
theorem executeActions_keysOf (acts : List AnimationAction) :
    ∀ (xs : List Nat) (m m' : List (Nat × StepSymbolState)),
      Animation.execute_actions xs m acts = some m' → keysOf m' = keysOf m := by
  intro xs
  induction xs with
  | nil =>
      intro m m' h
      simp [Animation.execute_actions] at h
      rw [h]
  | cons x rest ih =>
      intro m m' h
      unfold Animation.execute_actions at h
      cases hx : lookupKey x m with
      | none => rw [hx] at h; simp at h
      | some st =>
          rw [hx] at h
          simp only at h
          have hmem : x ∈ keysOf m := by
            rw [← lookupKey_isSome_iff_mem]
            simp [hx]
          rw [ih _ _ h, keysOf_setKey x _ m hmem]

/-- When every resolved coordinate is a key of the step-state map,
`execute_actions` returns normally. -/
theorem executeActions_isSome (acts : List AnimationAction) :
    ∀ (xs : List Nat) (m : List (Nat × StepSymbolState)),
      (∀ x ∈ xs, x ∈ keysOf m) →
      (Animation.execute_actions xs m acts).isSome = true := by
  intro xs
  induction xs with
  | nil => intro m _; simp [Animation.execute_actions]
  | cons x rest ih =>
      intro m hall
      have hx : x ∈ keysOf m := hall x (List.mem_cons_self x rest)
      have hsome : (lookupKey x m).isSome = true :=
        (lookupKey_isSome_iff_mem x m).mpr hx
      cases hlk : lookupKey x m with
      | none => rw [hlk] at hsome; simp at hsome
      | some st =>
          unfold Animation.execute_actions
          rw [hlk]
          simp only
          apply ih
          intro y hy
          rw [keysOf_setKey x _ m hx]
          exact hall y (List.mem_cons_of_mem _ hy)

/-- When some resolved coordinate is not a key of the step-state map,
`execute_actions` panics (the failed lookup is unwrapped). -/
theorem executeActions_none_of_missing (acts : List AnimationAction) :
    ∀ (xs : List Nat) (m : List (Nat × StepSymbolState)),
      (∃ x ∈ xs, x ∉ keysOf m) →
      Animation.execute_actions xs m acts = none := by
  intro xs
  induction xs with
  | nil =>
      rintro m ⟨x, hx, _⟩
      simp at hx
  | cons x rest ih =>
      rintro m ⟨y, hy, hout⟩
      cases hlk : lookupKey x m with
      | none =>
          unfold Animation.execute_actions
          rw [hlk]
      | some st =>
          have hxmem : x ∈ keysOf m := by
            rw [← lookupKey_isSome_iff_mem]
            simp [hlk]
          have hy' : y ∈ rest := by
            rcases List.mem_cons.mp hy with h | h
            · subst h; exact absurd hxmem hout
            · exact h
          unfold Animation.execute_actions
          rw [hlk]
          simp only
          apply ih
          refine ⟨y, hy', ?_⟩
          rw [keysOf_setKey x _ m hxmem]
          exact hout

/-- C2 amended: a resolved position absent from the per-position state map
is not skipped — `execute_actions` unwraps the failed lookup and panics
(the panic propagates out of `process_step` and `next_frame`); only when
every resolved position is present does execution succeed and style the
positions normally. -/
theorem execute_actions_panics_on_missing_position (xs : List Nat)
    (m : List (Nat × StepSymbolState)) (acts : List AnimationAction) :
    ((∃ x ∈ xs, x ∉ keysOf m) →
        Animation.execute_actions xs m acts = none) ∧
      ((∀ x ∈ xs, x ∈ keysOf m) →
        (Animation.execute_actions xs m acts).isSome = true) :=
  ⟨fun h => executeActions_none_of_missing acts xs m h,
   fun h => executeActions_isSome acts xs m h⟩

/-- Witness for the amended C2: position 5 is absent from the
one-position map, so `execute_actions` panics. -/
theorem execute_actions_panics_on_missing_position_witness :
    Animation.execute_actions [5] [(0, .Initial symA)]
      [.UpdateCharacter 'b'] = none :=
  (execute_actions_panics_on_missing_position [5] [(0, .Initial symA)]
      [.UpdateCharacter 'b']).1
    ⟨5, by norm_num, by simp [keysOf]⟩

/-- C2 counterexample: a step targeting `Single(5)` over a map holding
only position 0 makes the very first `next_frame()` call panic instead of
silently skipping the missing position. -/
theorem next_frame_panics_on_missing_position :
    (Animation.next_frame
      (Animation.new ⟨.Finite 2, .Auto, [stepCh5]⟩ [(0, symA)]) 0).1 =
      none :=
  rfl

/-- If the advance controller's current step is `None`, `next_frame`
returns `None` (no panic, no frame) and leaves the controller unchanged,
whatever the time and pause state. -/
theorem next_frame_none_of_current_none (a : Animation) (now : Nat)
    (h : a.advancable_animation.current_step = some none) :
    (a.next_frame now).1 = some none ∧
      (a.next_frame now).2.advancable_animation = a.advancable_animation := by
  unfold Animation.next_frame Animation.select_step
  by_cases hp : a.is_paused
  · simp [hp, h]
  · cases hts : a.last_step_retrieved_at with
    | none => simp [hp, hts, h]
    | some last =>
        unfold Animation.next_step_gate
        simp [hp, hts, h]

/-- C9: an `Animation` built from `Finite(1)` over exactly one step is
terminal at construction (index 0 is the last index and iteration 0 is
the last iteration), so the very first `next_frame()` call — and every
later one, whatever the timestamps — returns `None` without applying the
step or producing a frame. -/
theorem finite_one_single_step_never_frames (step : AnimationStep)
    (am : AnimationAdvanceMode) (symbols : List (Nat × Symbol))
    (ts : List Nat) :
    (∀ now : Nat,
        (Animation.next_frame
          (Animation.new ⟨.Finite 1, am, [step]⟩ symbols) now).1 =
          some none) ∧
      (runFrames (Animation.new ⟨.Finite 1, am, [step]⟩ symbols)
          ts).1.all (fun r => decide (r = some none)) = true := by
  have hcur : (Animation.new
      ⟨.Finite 1, am, [step]⟩ symbols).advancable_animation.current_step =
      some none := by
    cases am <;> rfl
  constructor
  · intro now
    exact (next_frame_none_of_current_none _ now hcur).1
  · have key : ∀ (us : List Nat) (b : Animation),
        b.advancable_animation.current_step = some none →
        (runFrames b us).1.all (fun r => decide (r = some none)) = true := by
      intro us
      induction us with
      | nil => intro b _; rfl
      | cons u us ih =>
          intro b hb
          have h1 := next_frame_none_of_current_none b u hb
          have h2 := ih (b.next_frame u).2 (by rw [h1.2]; exact hb)
          show ((b.next_frame u).1 ::
              (runFrames (b.next_frame u).2 us).1).all
            (fun r => decide (r = some none)) = true
          rw [List.all_cons, h1.1, h2]
          rfl
    exact key ts _ hcur

/-- Re-pairing the values of an association list does not change its key
list. -/
theorem keysOf_map_pair (f : Nat × α → β) (m : List (Nat × α)) :
    keysOf (m.map (fun p => (p.1, f p))) = keysOf m := by
  induction m with
  | nil => rfl
  | cons p rest ih =>
      simp only [List.map_cons, keysOf] at ih ⊢
      rw [ih]

/-- A successful pass over a step's sorted `(target, actions)` entries
preserves the key list of the step-state map. -/
theorem processActions_keysOf
    (l : List (AnimationTarget × List AnimationAction)) :
    ∀ m m', Animation.processActions m l = some m' → keysOf m' = keysOf m := by
  induction l with
  | nil =>
      intro m m' h
      simp [Animation.processActions] at h
      rw [h]
  | cons p rest ih =>
      intro m m' h
      obtain ⟨t, acts⟩ := p
      unfold Animation.processActions at h
      dsimp only at h
      cases hex : Animation.execute_actions
          (Animation.resolve_target t m) m acts with
      | none => rw [hex] at h; simp at h
      | some m1 =>
          rw [hex] at h
          dsimp only at h
          rw [ih _ _ h, executeActions_keysOf acts _ _ _ hex]

/-- A successful `process_step` preserves the key list of the committed
per-position state map. -/
theorem process_step_keysOf (b : Animation) (step : AnimationStep)
    (a' : Animation) (h : Animation.process_step b step = some a') :
    keysOf a'.symbol_states = keysOf b.symbol_states := by
  unfold Animation.process_step at h
  dsimp only at h
  cases hp : Animation.processActions
      (b.symbol_states.map (fun p => (p.1, p.2.intoStep)))
      (sortActions step.actions) with
  | none => rw [hp] at h; simp at h
  | some m' =>
      rw [hp] at h
      simp only [Option.some.injEq] at h
      rw [← h]
      show keysOf (m'.map (fun p => (p.1, p.2.intoState))) = _
      rw [keysOf_map_pair, processActions_keysOf _ _ _ hp, keysOf_map_pair]

/-- The timing gate never touches the per-position state map. -/
theorem next_step_gate_symbol_states (a : Animation) (now last : Nat) :
    (Animation.next_step_gate a now last).2.symbol_states =
      a.symbol_states := by
  unfold Animation.next_step_gate
  split
  · rfl
  · rfl
  · split
    · dsimp only
      split <;> rfl
    · rfl

/-- The frame emitted by `make_frame` has exactly the keys of the
committed per-position state map. -/
theorem make_frame_keysOf (b : Animation) :
    keysOf (Animation.make_frame b).symbols = keysOf b.symbol_states := by
  unfold Animation.make_frame
  dsimp only
  exact keysOf_map_pair (fun p => Animation.frameSymbol p.2) b.symbol_states

/-- Step selection never touches the per-position state map. -/
theorem select_step_symbol_states (a : Animation) (now : Nat) :
    (Animation.select_step a now).2.symbol_states = a.symbol_states := by
  unfold Animation.select_step
  split
  · rfl
  · split
    · rfl
    · exact next_step_gate_symbol_states _ _ _

/-- C10: for an animation whose initial symbols map has key list `K`,
under the precondition that every target of every step resolves within
`K` (over any step-state map with key list `K`), every frame produced by
`next_frame()` has exactly the key list `K`, and so does the committed
state afterwards: processing a step never inserts or removes positions,
and `make_frame` emits a symbol for every position whether its state is
`Styled` or `Initial`. (Key preservation in fact holds whenever a frame
is produced at all, because a resolved position outside `K` panics
instead of producing a frame.) -/
theorem next_frame_preserves_key_set (a : Animation) (K : List Nat)
    (now : Nat) (hK : keysOf a.symbol_states = K)
    (hsafe : ∀ st ∈ a.stepsList, ∀ p ∈ st.actions,
      ∀ m : List (Nat × StepSymbolState), keysOf m = K →
        ∀ x ∈ Animation.resolve_target p.1 m, x ∈ K)
    (fr : AnimationFrame) (a' : Animation)
    (h : a.next_frame now = (some (some fr), a')) :
    keysOf fr.symbols = K ∧ keysOf a'.symbol_states = K := by
  unfold Animation.next_frame at h
  dsimp only at h
  split at h
  · simp at h
  · rename_i step heq
    cases hps : Animation.process_step (Animation.select_step a now).2
        step with
    | none => rw [hps] at h; simp at h
    | some a2 =>
        rw [hps] at h
        simp only [Prod.mk.injEq, Option.some.injEq] at h
        obtain ⟨hfr, ha'⟩ := h
        have hkeys : keysOf a2.symbol_states = K := by
          rw [process_step_keysOf _ _ _ hps, select_step_symbol_states, hK]
        constructor
        · rw [← hfr, make_frame_keysOf]
          exact hkeys
        · rw [← ha']
          exact hkeys
  · simp at h

/-- Witness for C10: a one-position animation with a `Single(0)` step
produces a first frame whose key list is exactly `[0]`, and the committed
state keeps key list `[0]`. -/
theorem next_frame_preserves_key_set_witness :
    keysOf (AnimationFrame.mk
        [(0, { value := 'b', foreground_color := 0, background_color := 0,
               modifier := 0 })]).symbols = [0] ∧
      keysOf ((Animation.new ⟨.Finite 2, .Auto, [stepCh0]⟩
        [(0, symA)]).next_frame 0).2.symbol_states = [0] :=
  next_frame_preserves_key_set
    (Animation.new ⟨.Finite 2, .Auto, [stepCh0]⟩ [(0, symA)]) [0] 0 rfl
    (by
      intro st hst p hp m hm x hx
      simp [Animation.stepsList, AdvancableAnimation.stepsList,
        RepeatableAnimation.stepsList, AdvancableAnimation.new,
        RepeatableAnimation.new, FinitelyRepeatableAnimation.new,
        Animation.new] at hst
      subst hst
      simp [stepCh0] at hp
      subst hp
      simp [Animation.resolve_target] at hx
      simp [hx])
    (AnimationFrame.mk
      [(0, { value := 'b', foreground_color := 0, background_color := 0,
             modifier := 0 })])
    ((Animation.new ⟨.Finite 2, .Auto, [stepCh0]⟩ [(0, symA)]).next_frame
      0).2
    rfl

end Caponata
